import Mathlib

/-!
Verification of the social-feed serving core (API feed pipeline, fan-out
worker, mailbox store) against its natural-language specification.

The definitions below are a shallow embedding of the Python sources:

* `services/api/app/routers/feed.py` — the 4-stage `get_feed` pipeline
* `services/api/app/clients/pinot_client.py` — impression store query
* `services/api/app/clients/feast_client.py` — feature hydration
* `services/api/app/clients/ranking_client.py` — scoring + heuristic fallback
* `services/api/app/clients/redis_client.py` and
  `services/fanout-worker/app/main.py` — mailbox (Redis ZSET) operations and
  the fan-out worker

Machine floats are idealised as `ℚ`/`ℝ`; network calls are modelled by an
explicit outcome value (success payload or failure), mirroring exactly which
Python exceptions are caught where.
-/

namespace Spec2Proof

/-! ### Stage 1 — candidate generation (feed.py lines 92–128) -/

/-- Candidate source tag (`"social"` / `"discovery"` strings in the source). -/
inductive Source
  | social
  | discovery
deriving DecidableEq, Repr

/-- A Stage-1 candidate dict `{"post_id": pid, "source": src}` (feed.py 123/127). -/
structure Candidate where
  post_id : String
  source : Source
deriving DecidableEq, Repr

/-- One iteration of the merge loops in feed.py 121–128: state is
`(candidates, seen_in_merge)`; a post id is appended (tagged with the loop's
source) only when it has not been seen yet. -/
def mergeStep (src : Source) (st : List Candidate × List String) (pid : String) :
    List Candidate × List String :=
  if pid ∈ st.2 then st
  else (st.1 ++ [⟨pid, src⟩], pid :: st.2)

/-- The Stage-1 merge (feed.py 118–128): iterate the social ids first, then the
discovery ids, sharing one `seen_in_merge` set. -/
def mergeCandidates (social discovery : List String) : List Candidate :=
  let st1 := social.foldl (mergeStep .social) ([], [])
  let st2 := discovery.foldl (mergeStep .discovery) st1
  st2.1

/-- First-occurrence deduplication, written independently of `mergeCandidates`
as the specification's description of the merge order ("each PostId at most
once, in order of first occurrence"). -/
def firstOccur (l : List String) : List String :=
  l.foldl (fun acc x => if x ∈ acc then acc else acc ++ [x]) []

/-- Outcome of one of the two Stage-1 retrievals (`get_social_feed` /
`search_similar_posts`). Neither function contains a `try`/`except`; `failed`
models the coroutine raising (e.g. a Redis or Qdrant connection error). -/
inductive Retrieval (α : Type)
  | ok (val : α)
  | failed (msg : String)
deriving DecidableEq, Repr

/-- feed.py 103–111: `asyncio.gather` without `return_exceptions=True` and with
no surrounding `try`/`except` — if either retrieval raises, `gather` re-raises
and the exception escapes `get_feed` (there is no exception handler between the
gather and FastAPI, so the request fails). Otherwise both lists are merged. -/
def stage1Candidates (social discovery : Retrieval (List String)) :
    Retrieval (List Candidate) :=
  match social, discovery with
  | .ok s, .ok d => .ok (mergeCandidates s d)
  | .failed e, _ => .failed e
  | .ok _, .failed e => .failed e

/-! ### Stage 2 — impression discounting (pinot_client.py 39–67, feed.py 133–146) -/

/-- Ways the guarded block of `get_seen_post_ids` can raise: a non-2xx status
(`raise_for_status`), a transport/connection error from the POST, or a body
`resp.json()` fails to decode. All are caught by the same `except Exception`. -/
inductive PinotError
  | httpStatus
  | connection
  | badJson
deriving DecidableEq, Repr

/-- Result of the Pinot broker call as seen inside the `try` block: either one
of the failure modes above, or a decoded JSON body. Missing `"resultTable"` /
`"rows"` keys normalise to `[]` via the `.get(…, {})`/`.get(…, [])` defaults,
so a successful decode is just the list of rows (each row a list of column
values). -/
inductive PinotReply
  | failed (e : PinotError)
  | ok (rows : List (List String))
deriving DecidableEq, Repr

/-- pinot_client.py 39–67 (`PinotClient.get_seen_post_ids`): on any exception
return the empty set; on success build `{row[0] for row in rows}`. An empty row
makes `row[0]` raise `IndexError` inside the same `try`, so it also yields the
empty set. -/
def getSeenPostIds (reply : PinotReply) : Finset String :=
  match reply with
  | .failed _ => ∅
  | .ok rows =>
      if rows.any (·.isEmpty) then ∅
      else (rows.filterMap (·.head?)).toFinset

/-- feed.py 137: `[c for c in candidates if c["post_id"] not in seen_post_ids]`. -/
def filterSeen (cands : List Candidate) (seen : Finset String) : List Candidate :=
  cands.filter (fun c => c.post_id ∉ seen)

/-! ### Stage 4 — re-rank, diversity cap, hydration (feed.py 196–239) -/

/-- feed.py 73: business rule, at most 2 posts per author in a response. -/
def MAX_AUTHOR_POSTS : ℕ := 2

/-- config.py: `feed_page_size` default. -/
def feed_page_size : ℕ := 20

/-- The slice of a relational `Post` row consulted by the Stage-4 walk: its id
and its author (`user_id`). The remaining columns (content, media key, author
display names, like count, timestamps) are copied verbatim into the response
item and never branch the algorithm, so they are not modelled. -/
structure PostRow where
  post_id : String
  user_id : String
deriving DecidableEq, Repr

/-- The Stage-4 loop of feed.py 214–239. State: `counts` is the
`author_post_count` defaultdict, `acc` is `feed_posts` (the code appends the
accepted post's id to `served_ids` in lockstep, so `served_ids` is
`acc.map post_id`). Per iteration: stop when the page is full; silently skip
ids absent from the TiDB batch load (`post_map`); skip authors that already
have `MAX_AUTHOR_POSTS` accepted posts; otherwise accept. -/
def stage4Walk (postMap : String → Option PostRow) (pageSize : ℕ)
    (counts : String → ℕ) (acc : List PostRow) : List String → List PostRow
  | [] => acc
  | pid :: rest =>
    if pageSize ≤ acc.length then acc
    else
      match postMap pid with
      | none => stage4Walk postMap pageSize counts acc rest
      | some post =>
          if MAX_AUTHOR_POSTS ≤ counts post.user_id then
            stage4Walk postMap pageSize counts acc rest
          else
            stage4Walk postMap pageSize
              (fun a => if a = post.user_id then counts a + 1 else counts a)
              (acc ++ [post]) rest

/-- feed.py 199 + 210–239: take the ids of the top `3 × page_size` ranked
candidates (`ranked[: settings.feed_page_size * 3]`) and run the diversity
walk with fresh state. -/
def stage4Rerank (rankedIds : List String) (postMap : String → Option PostRow)
    (pageSize : ℕ) : List PostRow :=
  stage4Walk postMap pageSize (fun _ => 0) [] (rankedIds.take (pageSize * 3))

/-! ### Lemmas about the Stage-1 merge -/

/-- The merge loop only ever appends to the candidate accumulator. -/
lemma foldl_mergeStep_monotone (src : Source) (l : List String)
    (acc : List Candidate) (seen : List String) :
    ∃ tail, (l.foldl (mergeStep src) (acc, seen)).1 = acc ++ tail := by
  induction l generalizing acc seen with
  | nil => exact ⟨[], by simp⟩
  | cons pid rest ih =>
    simp only [List.foldl_cons, mergeStep]
    by_cases h : pid ∈ seen
    · simpa [h] using ih acc seen
    · simp only [h, if_false]
      obtain ⟨t, ht⟩ := ih (acc ++ [⟨pid, src⟩]) (pid :: seen)
      exact ⟨⟨pid, src⟩ :: t, by simpa using ht⟩

/-- Running the merge loop tracks the first-occurrence fold on post ids, and
the `seen` set stays extensionally equal to the set of accumulated ids. -/
lemma foldl_mergeStep_ids (src : Source) (l : List String)
    (acc : List Candidate) (seen : List String)
    (hinv : ∀ p, p ∈ seen ↔ p ∈ acc.map Candidate.post_id) :
    ((l.foldl (mergeStep src) (acc, seen)).1.map Candidate.post_id
        = l.foldl (fun a x => if x ∈ a then a else a ++ [x])
            (acc.map Candidate.post_id))
    ∧ (∀ p, p ∈ (l.foldl (mergeStep src) (acc, seen)).2
        ↔ p ∈ (l.foldl (mergeStep src) (acc, seen)).1.map Candidate.post_id) := by
  induction l generalizing acc seen with
  | nil => exact ⟨rfl, hinv⟩
  | cons pid rest ih =>
    by_cases h : pid ∈ seen
    · have h' : pid ∈ acc.map Candidate.post_id := (hinv pid).mp h
      simpa only [List.foldl_cons, mergeStep, h, if_true, h'] using ih acc seen hinv
    · have h' : pid ∉ acc.map Candidate.post_id := fun hc => h ((hinv pid).mpr hc)
      have hinv' : ∀ p, p ∈ pid :: seen
          ↔ p ∈ (acc ++ [Candidate.mk pid src]).map Candidate.post_id := by
        intro p
        simp only [List.mem_cons, List.map_append, List.mem_append, hinv p]
        constructor
        · rintro (rfl | hp)
          · exact Or.inr (by simp)
          · exact Or.inl hp
        · rintro (hp | hp)
          · exact Or.inr hp
          · exact Or.inl (by simpa using hp)
      have := ih (acc ++ [⟨pid, src⟩]) (pid :: seen) hinv'
      simpa only [List.foldl_cons, mergeStep, h, if_false, h', List.map_append] using this

/-- Every candidate produced by the merge loop either was already accumulated
or carries the loop's source tag and an id from the iterated list. -/
lemma foldl_mergeStep_src (src : Source) (l : List String)
    (acc : List Candidate) (seen : List String) :
    ∀ c ∈ (l.foldl (mergeStep src) (acc, seen)).1,
      c ∈ acc ∨ (c.source = src ∧ c.post_id ∈ l) := by
  induction l generalizing acc seen with
  | nil => exact fun c hc => Or.inl hc
  | cons pid rest ih =>
    intro c hc
    simp only [List.foldl_cons, mergeStep] at hc
    by_cases h : pid ∈ seen
    · rcases ih acc seen c (by simpa [h] using hc) with h1 | h2
      · exact Or.inl h1
      · exact Or.inr ⟨h2.1, List.mem_cons_of_mem _ h2.2⟩
    · simp only [h, if_false] at hc
      rcases ih _ _ c hc with h1 | h2
      · rcases List.mem_append.mp h1 with h3 | h4
        · exact Or.inl h3
        · have hc4 : c = ⟨pid, src⟩ := by simpa using h4
          subst hc4
          exact Or.inr ⟨rfl, List.mem_cons_self _ _⟩
      · exact Or.inr ⟨h2.1, List.mem_cons_of_mem _ h2.2⟩

/-- The first-occurrence fold retains its accumulator and absorbs every
element of the iterated list. -/
lemma foldl_firstOccur_mem (l : List String) (a : List String) (p : String)
    (hp : p ∈ a ∨ p ∈ l) :
    p ∈ l.foldl (fun acc x => if x ∈ acc then acc else acc ++ [x]) a := by
  induction l generalizing a with
  | nil => simpa using hp
  | cons x rest ih =>
    simp only [List.foldl_cons]
    by_cases hx : x ∈ a
    · rw [if_pos hx]
      rcases hp with hp | hp
      · exact ih a (Or.inl hp)
      · rcases List.mem_cons.mp hp with rfl | hp
        · exact ih a (Or.inl hx)
        · exact ih a (Or.inr hp)
    · rw [if_neg hx]
      rcases hp with hp | hp
      · exact ih (a ++ [x]) (Or.inl (by simp [List.mem_append, hp]))
      · rcases List.mem_cons.mp hp with rfl | hp
        · exact ih (a ++ [p]) (Or.inl (by simp))
        · exact ih (a ++ [x]) (Or.inr hp)

/-- The first-occurrence fold preserves `Nodup`. -/
lemma foldl_firstOccur_nodup (l : List String) (a : List String) (ha : a.Nodup) :
    (l.foldl (fun acc x => if x ∈ acc then acc else acc ++ [x]) a).Nodup := by
  induction l generalizing a with
  | nil => simpa using ha
  | cons x rest ih =>
    simp only [List.foldl_cons]
    by_cases hx : x ∈ a
    · rw [if_pos hx]
      exact ih a ha
    · rw [if_neg hx]
      refine ih (a ++ [x]) ?_
      simp [List.nodup_append, ha, hx]

/-! ### Lemmas about the Stage-4 walk -/

/-- Number of accepted posts attributed to author `a`. -/
def authorCount (l : List PostRow) (a : String) : ℕ :=
  (l.filter (fun p => p.user_id == a)).length

lemma authorCount_append_single (l : List PostRow) (p : PostRow) (a : String) :
    authorCount (l ++ [p]) a
      = authorCount l a + (if p.user_id = a then 1 else 0) := by
  by_cases h : p.user_id = a
  · simp [authorCount, List.filter_append, h]
  · simp [authorCount, List.filter_append, h]

/-- Invariant of the diversity walk: if the per-author tallies dominate the
actual counts in the accumulator and never exceed the cap, the final
per-author counts respect the cap. -/
lemma stage4Walk_author_bound (postMap : String → Option PostRow) (pageSize : ℕ)
    (l : List String) (counts : String → ℕ) (acc : List PostRow)
    (hinv : ∀ a, authorCount acc a ≤ counts a ∧ counts a ≤ MAX_AUTHOR_POSTS) :
    ∀ a, authorCount (stage4Walk postMap pageSize counts acc l) a
      ≤ MAX_AUTHOR_POSTS := by
  induction l generalizing counts acc with
  | nil => exact fun a => le_trans (hinv a).1 (hinv a).2
  | cons pid rest ih =>
    intro a
    simp only [stage4Walk]
    by_cases hfull : pageSize ≤ acc.length
    · rw [if_pos hfull]
      exact le_trans (hinv a).1 (hinv a).2
    · rw [if_neg hfull]
      cases hpm : postMap pid with
      | none => exact ih counts acc hinv a
      | some post =>
        dsimp only
        by_cases hcap : MAX_AUTHOR_POSTS ≤ counts post.user_id
        · rw [if_pos hcap]
          exact ih counts acc hinv a
        · rw [if_neg hcap]
          refine ih _ _ ?_ a
          intro b
          rw [authorCount_append_single]
          by_cases hb : b = post.user_id
          · subst hb
            refine ⟨?_, ?_⟩
            · simp only [if_pos rfl]
              exact Nat.add_le_add_right (hinv post.user_id).1 1
            · simp only [if_pos rfl]
              exact Nat.succ_le_of_lt (lt_of_not_le hcap)
          · have hb' : post.user_id ≠ b := fun h => hb h.symm
            simp only [if_neg hb', if_neg (Ne.symm hb')]
            simpa using hinv b

/-- The walk never accepts more than `pageSize` posts. -/
lemma stage4Walk_length (postMap : String → Option PostRow) (pageSize : ℕ)
    (l : List String) (counts : String → ℕ) (acc : List PostRow)
    (h : acc.length ≤ pageSize) :
    (stage4Walk postMap pageSize counts acc l).length ≤ pageSize := by
  induction l generalizing counts acc with
  | nil => exact h
  | cons pid rest ih =>
    simp only [stage4Walk]
    by_cases hfull : pageSize ≤ acc.length
    · rw [if_pos hfull]
      exact h
    · rw [if_neg hfull]
      cases postMap pid with
      | none => exact ih counts acc h
      | some post =>
        dsimp only
        by_cases hcap : MAX_AUTHOR_POSTS ≤ counts post.user_id
        · rw [if_pos hcap]
          exact ih counts acc h
        · rw [if_neg hcap]
          refine ih _ (acc ++ [post]) ?_
          have : acc.length < pageSize := lt_of_not_le hfull
          simpa using this

/-! ### Claim theorems (Stage 1, 2, 4) -/

/-- Claim C1 — contrary to the claim, Stage 1 has no per-branch failure
handling: the two retrievals run under a bare `asyncio.gather`, so a failing
branch does not contribute an empty list — its exception propagates and the
feed request itself fails. Evaluated here at the failing inputs: a failed
social (resp. discovery) retrieval makes Stage 1 fail even though the other
branch succeeded, whereas the claim demands the merge of `[]` with the
surviving list (shown in the third conjunct). -/
theorem c1_stage1_failure_propagates :
    stage1Candidates (.failed "redis: connection refused") (.ok ["p1"])
      = .failed "redis: connection refused"
    ∧ stage1Candidates (.ok ["p1"]) (.failed "qdrant: connection refused")
      = .failed "qdrant: connection refused"
    ∧ mergeCandidates [] ["p1"] = [⟨"p1", .discovery⟩] := by
  exact ⟨rfl, rfl, rfl⟩

/-- Claim C5 — in every response the Stage-4 walk accepts at most
`MAX_AUTHOR_POSTS = 2` posts per author and stops at `page_size = 20`
accepted posts. -/
theorem c5_diversity_cap (rankedIds : List String)
    (postMap : String → Option PostRow) :
    (∀ a, authorCount (stage4Rerank rankedIds postMap feed_page_size) a
        ≤ MAX_AUTHOR_POSTS)
    ∧ (stage4Rerank rankedIds postMap feed_page_size).length ≤ feed_page_size := by
  constructor
  · intro a
    refine stage4Walk_author_bound _ _ _ _ _ ?_ a
    intro b
    exact ⟨by simp [authorCount], by simp [MAX_AUTHOR_POSTS]⟩
  · exact stage4Walk_length _ _ _ _ _ (by simp)

/-- Claim C6 — the Stage-1 merge contains each PostId at most once, its ids are
exactly the first occurrences of `social ++ discovery` in order (social
iterated first), and a candidate is tagged `social` precisely when its id
occurs in the social list (so a collision keeps the social tag). -/
theorem c6_merge_first_seen (S D : List String) :
    ((mergeCandidates S D).map Candidate.post_id).Nodup
    ∧ (mergeCandidates S D).map Candidate.post_id = firstOccur (S ++ D)
    ∧ ∀ c ∈ mergeCandidates S D, (c.source = .social ↔ c.post_id ∈ S) := by
  have hinv0 : ∀ p : String,
      p ∈ ([] : List String) ↔ p ∈ ([] : List Candidate).map Candidate.post_id := by
    simp
  have h1 := foldl_mergeStep_ids .social S [] [] hinv0
  have h2 := foldl_mergeStep_ids .discovery D
      (S.foldl (mergeStep .social) ([], [])).1
      (S.foldl (mergeStep .social) ([], [])).2 h1.2
  have hids : (mergeCandidates S D).map Candidate.post_id = firstOccur (S ++ D) := by
    have h2' := h2.1
    rw [h1.1] at h2'
    show (D.foldl (mergeStep .discovery) (S.foldl (mergeStep .social) ([], []))).1.map
        Candidate.post_id = firstOccur (S ++ D)
    rw [firstOccur, List.foldl_append]
    exact h2'
  have hnodup : ((mergeCandidates S D).map Candidate.post_id).Nodup := by
    rw [hids]
    exact foldl_firstOccur_nodup (S ++ D) [] (by simp)
  refine ⟨hnodup, hids, ?_⟩
  intro c hc
  have hc' : c ∈ (D.foldl (mergeStep .discovery)
      ((S.foldl (mergeStep .social) ([], [])).1,
       (S.foldl (mergeStep .social) ([], [])).2)).1 := hc
  have hdich : (c.source = .social ∧ c.post_id ∈ S)
      ∨ (c.source = .discovery ∧ c.post_id ∈ D) := by
    rcases foldl_mergeStep_src .discovery D _ _ c hc' with h | h
    · rcases foldl_mergeStep_src .social S [] [] c h with h' | h'
      · simp at h'
      · exact Or.inl h'
    · exact Or.inr h
  constructor
  · intro hsoc
    rcases hdich with ⟨_, hS⟩ | ⟨hdisc, _⟩
    · exact hS
    · rw [hsoc] at hdisc
      cases hdisc
  · intro hS
    have hmem1 : c.post_id
        ∈ (S.foldl (mergeStep .social) ([], [])).1.map Candidate.post_id := by
      rw [h1.1]
      exact foldl_firstOccur_mem S [] c.post_id (Or.inr hS)
    obtain ⟨c', hc'1, hc'id⟩ := List.mem_map.mp hmem1
    obtain ⟨tail, htail⟩ := foldl_mergeStep_monotone .discovery D
        (S.foldl (mergeStep .social) ([], [])).1
        (S.foldl (mergeStep .social) ([], [])).2
    have hc'2 : c' ∈ mergeCandidates S D := by
      show c' ∈ (D.foldl (mergeStep .discovery)
          (S.foldl (mergeStep .social) ([], []))).1
      rw [htail]
      exact List.mem_append_left _ hc'1
    have hceq : c = c' :=
      List.inj_on_of_nodup_map hnodup hc hc'2 (by rw [hc'id])
    rcases foldl_mergeStep_src .social S [] [] c' hc'1 with h' | h'
    · simp at h'
    · rw [hceq]
      exact h'.1

/-- Claim C7 — whatever the failure mode of the impression-store query (non-2xx
HTTP status, connection error, malformed response body), `get_seen_post_ids`
returns the empty set rather than raising, and filtering with that empty seen
set leaves the candidate list unchanged. -/
theorem c7_seen_ids_graceful (e : PinotError) (cands : List Candidate) :
    getSeenPostIds (.failed e) = ∅
    ∧ filterSeen cands (getSeenPostIds (.failed e)) = cands := by
  refine ⟨rfl, ?_⟩
  simp [filterSeen, getSeenPostIds]

/-- Claim C10 — a ranked id absent from the TiDB batch load is skipped without
consuming a page slot or an author tally (the walk state is untouched), and a
full page of ranked ids can still produce an empty response: 20 ranked ids,
none loadable, yield `[]`. -/
theorem c10_missing_rows_skipped :
    (∀ (postMap : String → Option PostRow) (pageSize : ℕ)
        (counts : String → ℕ) (acc : List PostRow) (pid : String)
        (rest : List String),
      postMap pid = none →
        stage4Walk postMap pageSize counts acc (pid :: rest)
          = stage4Walk postMap pageSize counts acc rest)
    ∧ ((List.range feed_page_size).map (fun i => toString i)).length
        = feed_page_size
    ∧ stage4Rerank ((List.range feed_page_size).map (fun i => toString i))
        (fun _ => none) feed_page_size = [] := by
  refine ⟨?_, by simp, by decide⟩
  intro postMap pageSize counts acc pid rest h
  simp only [stage4Walk]
  by_cases hfull : pageSize ≤ acc.length
  · rw [if_pos hfull]
    cases rest with
    | nil => rfl
    | cons x r =>
      simp only [stage4Walk]
      rw [if_pos hfull]
  · rw [if_neg hfull, h]

/-- Witness for **C10**: the skip equation applied at a concrete input. -/
theorem c10_missing_rows_skipped_witness :
    stage4Walk (fun _ => none) 20 (fun _ => 0) [] ["a", "b"]
      = stage4Walk (fun _ => none) 20 (fun _ => 0) [] ["b"] :=
  c10_missing_rows_skipped.1 (fun _ => none) 20 (fun _ => 0) [] "a" ["b"] rfl

/-! ### Mailbox store — Redis ZSET model
(redis_client.py 46–75, fanout-worker main.py 78–91)

A mailbox is a Redis sorted set keyed by `feed:{user_id}`: members are post
ids, scores are publish timestamps (floats, idealised as `ℚ`). We represent a
ZSET canonically as its entry list in rank order. -/

/-- A ZSET entry: member (post id) and score. -/
abbrev ZEntry := String × ℚ

/-- Redis rank (non-strict): score ascending, ties broken by the member string
lexicographically. -/
def rankLe (a b : ZEntry) : Prop :=
  a.2 < b.2 ∨ (a.2 = b.2 ∧ a.1 ≤ b.1)

/-- Redis rank (strict): between entries with distinct members, `rankLe` is
strict. -/
def rankLt (a b : ZEntry) : Prop :=
  a.2 < b.2 ∨ (a.2 = b.2 ∧ a.1 < b.1)

instance : DecidableRel rankLe := fun a b => by
  unfold rankLe
  infer_instance

instance : DecidableRel rankLt := fun a b => by
  unfold rankLt
  infer_instance

instance : IsTotal ZEntry rankLe where
  total a b := by
    rcases lt_trichotomy a.2 b.2 with h | h | h
    · exact Or.inl (Or.inl h)
    · rcases le_total a.1 b.1 with h' | h'
      · exact Or.inl (Or.inr ⟨h, h'⟩)
      · exact Or.inr (Or.inr ⟨h.symm, h'⟩)
    · exact Or.inr (Or.inl h)

instance : IsTrans ZEntry rankLe where
  trans a b c hab hbc := by
    rcases hab with h1 | ⟨h1, h1'⟩
    · rcases hbc with h2 | ⟨h2, _⟩
      · exact Or.inl (lt_trans h1 h2)
      · exact Or.inl (h2 ▸ h1)
    · rcases hbc with h2 | ⟨h2, h2'⟩
      · exact Or.inl (h1 ▸ h2)
      · exact Or.inr ⟨h1.trans h2, le_trans h1' h2'⟩

/-- Model of `ZADD key {member: score}` — upsert the member with the given score. On
the canonical rank-sorted representation: drop any previous entry for the
member, then insert in rank order. -/
def zadd (z : List ZEntry) (p : String) (s : ℚ) : List ZEntry :=
  (z.filter fun e => e.1 ≠ p).orderedInsert rankLe (p, s)

/-- Model of `ZREMRANGEBYRANK key start stop` with Redis index semantics: negative
indices count from the end; the range is clamped to `[0, card−1]`; an empty
range removes nothing; otherwise all entries whose rank lies in the range are
removed. -/
def zremrangebyrank (z : List ZEntry) (start stop : ℤ) : List ZEntry :=
  let n : ℤ := z.length
  let s := max (if start < 0 then start + n else start) 0
  let e := min (if stop < 0 then stop + n else stop) (n - 1)
  if e < s then z
  else z.take s.toNat ++ z.drop (e.toNat + 1)

/-- Model of `push_to_feed` (redis_client.py 62–75 and fanout-worker main.py 80–91):
`ZADD key {post_id: score}` followed by
`ZREMRANGEBYRANK key 0 -(redis_feed_max_size + 1)`, then `EXPIRE` (the TTL
refresh is purely time-based and not modelled). `maxSize` is
`settings.redis_feed_max_size`, default 500. -/
def push (maxSize : ℕ) (z : List ZEntry) (p : String) (s : ℚ) : List ZEntry :=
  zremrangebyrank (zadd z p s) 0 (-(maxSize + 1))

/-- settings default: `redis_feed_max_size = 500`. -/
def redis_feed_max_size : ℕ := 500

/-- The trim after a push: a no-op when the set fits, otherwise it drops the
lowest-ranked entries so that `maxSize` remain. -/
lemma push_eq (maxSize : ℕ) (z : List ZEntry) (p : String) (s : ℚ) :
    push maxSize z p s =
      if (zadd z p s).length ≤ maxSize then zadd z p s
      else (zadd z p s).drop ((zadd z p s).length - maxSize) := by
  unfold push zremrangebyrank
  have hstart : ¬ ((0 : ℤ) < 0) := lt_irrefl 0
  have hstop : (-(maxSize + 1 : ℤ)) < 0 := by omega
  simp only [if_neg hstart, if_pos hstop]
  by_cases h : (zadd z p s).length ≤ maxSize
  · rw [if_pos h]
    have hcond : min (-(maxSize + 1 : ℤ) + (zadd z p s).length)
        ((zadd z p s).length - 1) < max 0 0 := by
      omega
    rw [if_pos hcond]
  · rw [if_neg h]
    have hcond : ¬ (min (-(maxSize + 1 : ℤ) + (zadd z p s).length)
        ((zadd z p s).length - 1) < max 0 0) := by
      omega
    rw [if_neg hcond]
    have hmin : min (-(maxSize + 1 : ℤ) + (zadd z p s).length)
        ((zadd z p s).length - 1) = -(maxSize + 1 : ℤ) + (zadd z p s).length := by
      omega
    rw [hmin]
    have htoNat : ((-(maxSize + 1 : ℤ) + (zadd z p s).length).toNat + 1)
        = (zadd z p s).length - maxSize := by
      omega
    rw [htoNat]
    simp

/-- Lemma: `ZADD` on a set not containing the member grows it by one; in general the
result has one entry for the member plus all entries of other members. -/
lemma zadd_length (z : List ZEntry) (p : String) (s : ℚ) :
    (zadd z p s).length = (z.filter fun e => e.1 ≠ p).length + 1 := by
  unfold zadd
  exact List.orderedInsert_length rankLe _ _

/-- A push leaves at most `maxSize` entries, whatever the starting state. -/
lemma push_length_le (maxSize : ℕ) (z : List ZEntry) (p : String) (s : ℚ) :
    (push maxSize z p s).length ≤ maxSize := by
  rw [push_eq]
  by_cases h : (zadd z p s).length ≤ maxSize
  · rw [if_pos h]
    exact h
  · rw [if_neg h]
    rw [List.length_drop]
    omega

/-- Lemma: `ZADD` preserves the canonical rank-sorted representation. -/
lemma zadd_sorted (z : List ZEntry) (p : String) (s : ℚ)
    (hz : List.Sorted rankLe z) :
    List.Sorted rankLe (zadd z p s) :=
  List.Sorted.orderedInsert (r := rankLe) (p, s) _ (List.Pairwise.filter _ hz)

/-- Lemma: `ZADD` preserves uniqueness of members. -/
lemma zadd_nodup_keys (z : List ZEntry) (p : String) (s : ℚ)
    (hnd : (z.map Prod.fst).Nodup) :
    ((zadd z p s).map Prod.fst).Nodup := by
  have hperm : List.Perm (zadd z p s) ((p, s) :: z.filter fun e => e.1 ≠ p) :=
    List.perm_orderedInsert rankLe _ _
  rw [List.Perm.nodup_iff (hperm.map Prod.fst)]
  simp only [List.map_cons, List.nodup_cons]
  constructor
  · intro hmem
    obtain ⟨e, he, hfst⟩ := List.mem_map.mp hmem
    have := (List.mem_filter.mp he).2
    simp only [decide_eq_true_eq] at this
    exact this hfst
  · exact hnd.sublist ((List.filter_sublist z).map Prod.fst)

/-- If `rankLe` holds between entries with distinct members, the strict rank
order holds. -/
lemma rankLt_of_rankLe_ne_fst {a b : ZEntry} (h : rankLe a b) (hne : a.1 ≠ b.1) :
    rankLt a b := by
  rcases h with h | ⟨h, h'⟩
  · exact Or.inl h
  · exact Or.inr ⟨h, lt_of_le_of_ne h' hne⟩

/-- Any sequence of pushes starting from a bounded mailbox stays bounded. -/
lemma foldl_push_length (maxSize : ℕ) (ops : List (String × ℚ)) :
    ∀ z : List ZEntry, z.length ≤ maxSize →
      (ops.foldl (fun z e => push maxSize z e.1 e.2) z).length ≤ maxSize := by
  induction ops with
  | nil => exact fun z h => h
  | cons e rest ih =>
    intro z _
    exact ih _ (push_length_le maxSize z e.1 e.2)

/-- Claim C4 — mailbox bound and eviction policy. First conjunct: after any
sequence of `push` operations on an (initially empty) mailbox, at most
`maxSize` entries remain (`settings.redis_feed_max_size`, default 500).
Second conjunct: a push that would exceed the bound keeps exactly the
`maxSize` highest-ranked entries of the upserted set — the result has exactly
`maxSize` entries, is the top-`maxSize` suffix in rank order, and every
evicted entry ranks strictly below every kept entry. -/
theorem c4_mailbox_bound (maxSize : ℕ) :
    (∀ ops : List (String × ℚ),
      (ops.foldl (fun z e => push maxSize z e.1 e.2) []).length ≤ maxSize)
    ∧ ∀ (z : List ZEntry) (p : String) (s : ℚ),
        List.Sorted rankLe z → (z.map Prod.fst).Nodup →
        maxSize < (zadd z p s).length →
          (push maxSize z p s).length = maxSize
          ∧ push maxSize z p s
              = (zadd z p s).drop ((zadd z p s).length - maxSize)
          ∧ ∀ kept ∈ push maxSize z p s, ∀ ev ∈ zadd z p s,
              ev ∉ push maxSize z p s → rankLt ev kept := by
  constructor
  · exact fun ops => foldl_push_length maxSize ops [] (by simp)
  · intro z p s hsorted hnd hover
    have hdrop : push maxSize z p s
        = (zadd z p s).drop ((zadd z p s).length - maxSize) := by
      rw [push_eq, if_neg (by omega)]
    have hsorted' : List.Sorted rankLe (zadd z p s) := zadd_sorted z p s hsorted
    have hnd' : ((zadd z p s).map Prod.fst).Nodup := zadd_nodup_keys z p s hnd
    refine ⟨?_, hdrop, ?_⟩
    · rw [hdrop, List.length_drop]
      omega
    · intro kept hkept ev hev hevout
      set k := (zadd z p s).length - maxSize with hk
      rw [hdrop] at hkept hevout
      have hsplit : (zadd z p s).take k ++ (zadd z p s).drop k = zadd z p s :=
        List.take_append_drop k _
      have hev' : ev ∈ (zadd z p s).take k := by
        rw [← hsplit] at hev
        rcases List.mem_append.mp hev with h | h
        · exact h
        · exact absurd h hevout
      have hpair : ∀ x ∈ (zadd z p s).take k, ∀ y ∈ (zadd z p s).drop k,
          rankLe x y := by
        have := hsorted'
        rw [← hsplit] at this
        exact fun x hx y hy => (List.pairwise_append.mp this).2.2 x hx y hy
      have hle : rankLe ev kept := hpair ev hev' kept hkept
      refine rankLt_of_rankLe_ne_fst hle ?_
      intro hfst
      have hkept' : kept ∈ zadd z p s := by
        rw [← hsplit]
        exact List.mem_append_right _ hkept
      have : ev = kept := List.inj_on_of_nodup_map hnd' hev hkept' hfst
      rw [this] at hev'
      have hnodup_full : (zadd z p s).Nodup := hnd'.of_map
      have hdisj := List.disjoint_take_drop (l := zadd z p s) hnodup_full (le_refl k)
      exact hdisj hev' hkept

/-- Witness for **C4**: with `maxSize = 1`, pushing `("b", 1)` onto the
singleton mailbox `[("a", 0)]` evicts the lower-ranked `("a", 0)`. -/
theorem c4_mailbox_bound_witness :
    List.Sorted rankLe [(("a" : String), (0 : ℚ))]
    ∧ ([(("a" : String), (0 : ℚ))].map Prod.fst).Nodup
    ∧ 1 < (zadd [(("a" : String), (0 : ℚ))] "b" 1).length
    ∧ ((push 1 [(("a" : String), (0 : ℚ))] "b" 1).length = 1
        ∧ push 1 [(("a" : String), (0 : ℚ))] "b" 1
            = (zadd [(("a" : String), (0 : ℚ))] "b" 1).drop
                ((zadd [(("a" : String), (0 : ℚ))] "b" 1).length - 1)
        ∧ ∀ kept ∈ push 1 [(("a" : String), (0 : ℚ))] "b" 1,
            ∀ ev ∈ zadd [(("a" : String), (0 : ℚ))] "b" 1,
              ev ∉ push 1 [(("a" : String), (0 : ℚ))] "b" 1 → rankLt ev kept) :=
  ⟨by simp, by simp, by decide,
    (c4_mailbox_bound 1).2 [(("a" : String), (0 : ℚ))] "b" 1
      (by simp) (by simp) (by decide)⟩

/-! ### Fan-out worker (fanout-worker main.py 59–144) -/

/-- settings default: `fan_out_follower_cap = 10000`. -/
def fan_out_follower_cap : ℕ := 10000

/-- Global mailbox state: one ZSET per user (Redis key `feed:{user_id}`). -/
abbrev Mailboxes := String → List ZEntry

/-- Model of `get_followers` (main.py 59–75): `SELECT follower_id FROM follows WHERE
followee_id = %s LIMIT %s` with the cap as the LIMIT. `followersOf` is the
follows table projected per followee; the query returns at most `cap` rows. -/
def get_followers (followersOf : String → List String) (user_id : String)
    (cap : ℕ) : List String :=
  (followersOf user_id).take cap

/-- Model of `push_to_feed` lifted to the global state: push into the target user's
mailbox, leave every other mailbox untouched. -/
def pushToFeedState (maxSize : ℕ) (st : Mailboxes) (user_id post_id : String)
    (score : ℚ) : Mailboxes :=
  fun u => if u = user_id then push maxSize (st user_id) post_id score else st u

/-- Model of `process_message` (main.py 96–144). A malformed event — `msg.get` giving a
falsy `post_id`/`user_id` (`None` and `""` behave identically; modelled as
`""`) — is skipped. Otherwise: followers are fetched capped at `cap`
(`settings.fan_out_follower_cap`); `follower_count == 0` is a no-op;
**celebrity bypass** when `follower_count >= cap`; otherwise the post id is
pushed with score `now` (`time.time()`) to every follower's mailbox. The
`asyncio.gather` of the pushes touches pairwise distinct mailbox keys, so it
is modelled as a left fold over the follower list. -/
def processMessage (cap maxSize : ℕ) (followersOf : String → List String)
    (st : Mailboxes) (post_id user_id : String) (now : ℚ) : Mailboxes :=
  if post_id = "" ∨ user_id = "" then st
  else
    let followers := get_followers followersOf user_id cap
    if followers.length = 0 then st
    else if cap ≤ followers.length then st
    else followers.foldl (fun s f => pushToFeedState maxSize s f post_id now) st

/-- Folding pushes over pairwise-distinct mailbox keys updates exactly those
mailboxes, each once. -/
lemma foldl_pushToFeedState (maxSize : ℕ) (post_id : String) (now : ℚ)
    (fl : List String) (st : Mailboxes) (hnd : fl.Nodup) (u : String) :
    (fl.foldl (fun s f => pushToFeedState maxSize s f post_id now) st) u
      = if u ∈ fl then push maxSize (st u) post_id now else st u := by
  induction fl generalizing st with
  | nil => simp
  | cons f rest ih =>
    have hf : f ∉ rest := (List.nodup_cons.mp hnd).1
    have hnd' : rest.Nodup := (List.nodup_cons.mp hnd).2
    simp only [List.foldl_cons]
    rw [ih _ hnd']
    by_cases hu : u ∈ rest
    · rw [if_pos hu, if_pos (List.mem_cons_of_mem f hu)]
      have hune : u ≠ f := fun h => hf (h ▸ hu)
      simp [pushToFeedState, hune]
    · rw [if_neg hu]
      by_cases huf : u = f
      · subst huf
        rw [if_pos (List.mem_cons_self u rest)]
        simp [pushToFeedState]
      · rw [if_neg (by simp [huf, hu])]
        simp [pushToFeedState, huf]

/-- Inserting an entry that ranks above everything in the set appends it. -/
lemma orderedInsert_append_of_forall (a : ZEntry) (l : List ZEntry)
    (h : ∀ b ∈ l, ¬ rankLe a b) :
    l.orderedInsert rankLe a = l ++ [a] := by
  induction l with
  | nil => rfl
  | cons b rest ih =>
    rw [List.orderedInsert, if_neg (h b (List.mem_cons_self b rest)),
      ih (fun x hx => h x (List.mem_cons_of_mem _ hx))]
    rfl

/-- A pushed post whose score is strictly newer than everything already in
the mailbox survives the trim (for any positive size bound). -/
lemma mem_push_of_fresh (maxSize : ℕ) (z : List ZEntry) (p : String) (s : ℚ)
    (hM : 1 ≤ maxSize) (hfresh : ∀ e ∈ z, e.2 < s) :
    (p, s) ∈ push maxSize z p s := by
  have hins : zadd z p s = (z.filter fun e => e.1 ≠ p) ++ [(p, s)] := by
    apply orderedInsert_append_of_forall
    intro b hb
    have hb' : b ∈ z := (List.mem_filter.mp hb).1
    have hlt : b.2 < s := hfresh b hb'
    rintro (hcase | ⟨hcase, _⟩)
    · exact absurd hcase (not_lt.mpr (le_of_lt hlt))
    · exact absurd hcase.symm (ne_of_lt hlt)
  rw [push_eq]
  by_cases h : (zadd z p s).length ≤ maxSize
  · rw [if_pos h, hins]
    exact List.mem_append_right _ (by simp)
  · rw [if_neg h, hins]
    have hk : ((z.filter fun e => e.1 ≠ p) ++ [(p, s)]).length - maxSize
        ≤ (z.filter fun e => e.1 ≠ p).length := by
      rw [List.length_append, List.length_singleton]
      omega
    rw [List.drop_append_of_le_length hk]
    exact List.mem_append_right _ (by simp)

/-- The bypass branch: a valid event whose author's follower count reaches the
cap leaves the whole mailbox state unchanged. -/
lemma processMessage_bypass (cap maxSize : ℕ)
    (followersOf : String → List String) (st : Mailboxes)
    (post_id user_id : String) (now : ℚ)
    (hpid : post_id ≠ "") (huid : user_id ≠ "")
    (hcap : cap ≤ (followersOf user_id).length) :
    processMessage cap maxSize followersOf st post_id user_id now = st := by
  have hvalid : ¬ (post_id = "" ∨ user_id = "") := by
    rintro (h | h)
    · exact hpid h
    · exact huid h
  unfold processMessage
  rw [if_neg hvalid]
  have hlen : (get_followers followersOf user_id cap).length = cap := by
    unfold get_followers
    rw [List.length_take]
    omega
  by_cases hzero : cap = 0
  · rw [if_pos (by rw [hlen, hzero])]
  · rw [if_neg (by rw [hlen]; exact hzero), if_pos (by rw [hlen])]

/-- Claim C3 (amended) — celebrity bypass at the capped follower count. For a
valid new-post event: (i) an author whose follower count reaches
`fan_out_follower_cap` (default 10000) triggers the bypass and **no** mailbox
is mutated — note this includes an author with *exactly* `cap` followers,
because `get_followers` LIMITs at `cap` and the bypass tests
`follower_count >= cap`; (ii) for an author whose capped follower list is
shorter than `cap`, processing pushes the post id into the mailbox of every
(distinct) follower and touches no other mailbox, and when the post's score is
newer than everything in a follower's mailbox the post is present there
afterwards. -/
theorem c3_fanout_celebrity (cap maxSize : ℕ)
    (followersOf : String → List String) (st : Mailboxes)
    (post_id user_id : String) (now : ℚ)
    (hpid : post_id ≠ "") (huid : user_id ≠ "") :
    (cap ≤ (followersOf user_id).length →
      processMessage cap maxSize followersOf st post_id user_id now = st)
    ∧ ((get_followers followersOf user_id cap).Nodup →
        (get_followers followersOf user_id cap).length < cap →
        (∀ f ∈ get_followers followersOf user_id cap,
          processMessage cap maxSize followersOf st post_id user_id now f
            = push maxSize (st f) post_id now)
        ∧ (∀ u, u ∉ get_followers followersOf user_id cap →
            processMessage cap maxSize followersOf st post_id user_id now u
              = st u)
        ∧ (1 ≤ maxSize →
            ∀ f ∈ get_followers followersOf user_id cap,
              (∀ e ∈ st f, e.2 < now) →
              (post_id, now)
                ∈ processMessage cap maxSize followersOf st post_id user_id now f)) := by
  have hvalid : ¬ (post_id = "" ∨ user_id = "") := by
    rintro (h | h)
    · exact hpid h
    · exact huid h
  constructor
  · exact processMessage_bypass cap maxSize followersOf st post_id user_id now
      hpid huid
  · intro hnd hshort
    have hproc : ∀ u, processMessage cap maxSize followersOf st post_id user_id now u
        = if u ∈ get_followers followersOf user_id cap
          then push maxSize (st u) post_id now else st u := by
      intro u
      unfold processMessage
      rw [if_neg hvalid]
      by_cases hzero : (get_followers followersOf user_id cap).length = 0
      · rw [if_pos hzero]
        have : get_followers followersOf user_id cap = [] :=
          List.length_eq_zero.mp hzero
        rw [this]
        simp
      · rw [if_neg hzero, if_neg (by omega)]
        exact foldl_pushToFeedState maxSize post_id now _ st hnd u
    refine ⟨?_, ?_, ?_⟩
    · intro f hf
      rw [hproc f, if_pos hf]
    · intro u hu
      rw [hproc u, if_neg hu]
    · intro hM f hf hfresh
      rw [hproc f, if_pos hf]
      exact mem_push_of_fresh maxSize (st f) post_id now hM hfresh

/-- Witness for **C3**: with cap 2 and a single follower `"f1"`, processing a
valid event pushes the post into `"f1"`'s mailbox. -/
theorem c3_fanout_celebrity_witness :
    processMessage 2 1 (fun _ => ["f1"]) (fun _ => []) "p" "u" 5 "f1"
      = push 1 [] "p" 5 :=
  ((c3_fanout_celebrity 2 1 (fun _ => ["f1"]) (fun _ => []) "p" "u" 5
      (by decide) (by decide)).2 (by decide) (by decide)).1 "f1" (by decide)

/-- Claim C3 (counterexample to the claim as stated) — an author with exactly
`fan_out_follower_cap = 10000` followers is *not* fanned out: processing the
event leaves every mailbox unchanged, so follower `"0"`'s mailbox does not
receive the post, although the claim demands it for any author with at most
10000 followers. -/
theorem c3_fanout_exact_cap_counterexample :
    ((fun u => if u = "celeb"
        then (List.range 10000).map (fun i => toString i)
        else []) ("celeb" : String)).length = fan_out_follower_cap
    ∧ "0" ∈ (fun u => if u = "celeb"
        then (List.range 10000).map (fun i => toString i)
        else []) ("celeb" : String)
    ∧ processMessage fan_out_follower_cap redis_feed_max_size
        (fun u => if u = "celeb"
          then (List.range 10000).map (fun i => toString i)
          else [])
        (fun _ => []) "p1" "celeb" 0 "0" = [] := by
  refine ⟨by simp [fan_out_follower_cap], ?_, ?_⟩
  · simp only [if_pos rfl]
    exact List.mem_map.mpr ⟨0, by simp, rfl⟩
  · have h := processMessage_bypass fan_out_follower_cap redis_feed_max_size
      (fun u => if u = "celeb"
        then (List.range 10000).map (fun i => toString i)
        else [])
      (fun _ => []) "p1" "celeb" 0 (by decide) (by decide)
      (by simp [fan_out_follower_cap])
    rw [h]

/-! ### Ranking client — heuristic fallback (ranking_client.py 37–93)

Machine floats are idealised as exact reals. -/

/-- The slice of a candidate dict consulted by `score_candidates` and
`_apply_heuristic_scores`: `post_features.get("like_count", 0)` (an `Int64`
count in the feature schema, missing key defaults to 0) and
`post_features.get("created_at_ts", now)` (Unix seconds, missing key defaults
to `now`, i.e. zero age); `rank_score` is (over)written by scoring, so only
the scored output value is meaningful. -/
structure RankCand where
  post_id : String
  like_count : Option ℕ
  created_at_ts : Option ℝ
  rank_score : ℝ

/-- Python `round(x, 4)` idealised on exact reals: round to 4 decimal places
(`round` in Mathlib is round-half-up; Python floats round half-to-even, which
differs only on exact `.5` ties of `x·10⁴`). -/
noncomputable def round4 (x : ℝ) : ℝ := (round (x * 10000) : ℤ) / 10000

/-- ranking_client.py 86: `max_likes = max((…like_count…), default=1) or 1` —
the maximum `like_count` over the batch, `1` for an empty batch, and the
trailing `or 1` replaces a falsy maximum (`0`) by `1`. -/
def maxLikesOf (cands : List RankCand) : ℕ :=
  let m := match cands with
    | [] => 1
    | _ :: _ => (cands.map (fun c => c.like_count.getD 0)).foldr max 0
  if m = 0 then 1 else m

/-- ranking_client.py 88–93: the heuristic score of one candidate —
`round(0.5 * exp(-age_hours / 48) + 0.5 * like_count / max_likes, 4)` with
`age_hours = (now - created_at_ts) / 3600`. -/
noncomputable def heuristicScore (now : ℝ) (m : ℕ) (c : RankCand) : ℝ :=
  round4 (0.5 * Real.exp (-((now - c.created_at_ts.getD now) / 3600 / 48))
    + 0.5 * ((c.like_count.getD 0 : ℝ) / m))

/-- Model of `_apply_heuristic_scores` (ranking_client.py 80–93): write the heuristic
score into every candidate of the batch. -/
noncomputable def applyHeuristicScores (now : ℝ) (cands : List RankCand) :
    List RankCand :=
  cands.map (fun c => { c with rank_score := heuristicScore now (maxLikesOf cands) c })

/-- Descending comparison on `rank_score` for the final
`candidates.sort(key=…, reverse=True)`. -/
def scoreGe (c d : RankCand) : Prop := d.rank_score ≤ c.rank_score

noncomputable instance : DecidableRel scoreGe := fun _ _ =>
  Real.decidableLE _ _

/-- Model of `score_candidates` when the POST to `/rank` raises (ranking_client.py
54–77, `except` branch): the empty batch short-circuits to `[]`; otherwise
heuristic scores are applied to every candidate and the batch is sorted by
`rank_score` descending (Python's stable sort; a stable insertion sort
here). -/
noncomputable def scoreCandidatesFailed (now : ℝ) (cands : List RankCand) :
    List RankCand :=
  if cands.isEmpty then []
  else (applyHeuristicScores now cands).insertionSort scoreGe

/-! #### Cauchy–Schwarz for lists (used for the cosine bound in Stage 3) -/

/-- Model of `np.dot` on equal-length 1-D arrays (as a list sum; `zipWith` is only
evaluated at equal lengths — see `cosineSim`). -/
def dotList (a b : List ℝ) : ℝ := (List.zipWith (· * ·) a b).sum

/-- Sum of squares. -/
def sumSq (a : List ℝ) : ℝ := (a.map (fun x => x ^ 2)).sum

/-- Model of `np.linalg.norm` — the Euclidean norm. -/
noncomputable def normList (a : List ℝ) : ℝ := Real.sqrt (sumSq a)

lemma sumSq_nonneg (a : List ℝ) : 0 ≤ sumSq a := by
  induction a with
  | nil => simp [sumSq]
  | cons x t ih =>
    simp only [sumSq, List.map_cons, List.sum_cons] at *
    nlinarith [sq_nonneg x]

lemma two_mul_dot_le (x y : ℝ) (a b : List ℝ) :
    2 * x * y * dotList a b ≤ x ^ 2 * sumSq b + y ^ 2 * sumSq a := by
  induction a generalizing b with
  | nil =>
    simp only [dotList, List.zipWith_nil_left, List.sum_nil, mul_zero]
    have h1 := mul_nonneg (sq_nonneg x) (sumSq_nonneg b)
    have h2 := mul_nonneg (sq_nonneg y) (sumSq_nonneg ([] : List ℝ))
    linarith
  | cons p ta ih =>
    cases b with
    | nil =>
      simp only [dotList, List.zipWith_nil_right, List.sum_nil, mul_zero]
      have h1 := mul_nonneg (sq_nonneg x) (sumSq_nonneg ([] : List ℝ))
      have h2 := mul_nonneg (sq_nonneg y) (sumSq_nonneg (p :: ta))
      linarith
    | cons q tb =>
      have h1 := ih tb
      have h2 : 2 * x * y * (p * q) ≤ x ^ 2 * q ^ 2 + y ^ 2 * p ^ 2 := by
        nlinarith [sq_nonneg (x * q - y * p)]
      simp only [dotList, sumSq, List.zipWith_cons_cons, List.map_cons,
        List.sum_cons] at *
      nlinarith [h1, h2]

lemma dotList_sq_le (a b : List ℝ) :
    (dotList a b) ^ 2 ≤ sumSq a * sumSq b := by
  induction a generalizing b with
  | nil =>
    simp [dotList, sumSq]
  | cons x ta ih =>
    cases b with
    | nil =>
      simp only [dotList, List.zipWith_nil_right, List.sum_nil]
      nlinarith [sumSq_nonneg (x :: ta), sumSq_nonneg ([] : List ℝ),
        sumSq_nonneg ta, sq_nonneg x]
    | cons y tb =>
      have hCS := ih tb
      have hAM := two_mul_dot_le x y ta tb
      simp only [dotList, sumSq, List.zipWith_cons_cons, List.map_cons,
        List.sum_cons] at *
      nlinarith [hCS, hAM, sq_nonneg x, sq_nonneg y, sumSq_nonneg ta,
        sumSq_nonneg tb]

lemma abs_dotList_le (a b : List ℝ) :
    |dotList a b| ≤ normList a * normList b := by
  have h := dotList_sq_le a b
  calc |dotList a b| = Real.sqrt ((dotList a b) ^ 2) :=
        (Real.sqrt_sq_eq_abs _).symm
    _ ≤ Real.sqrt (sumSq a * sumSq b) := Real.sqrt_le_sqrt h
    _ = Real.sqrt (sumSq a) * Real.sqrt (sumSq b) :=
        Real.sqrt_mul (sumSq_nonneg a) _
    _ = normList a * normList b := rfl

instance : IsTotal RankCand scoreGe :=
  ⟨fun a b => le_total b.rank_score a.rank_score⟩

instance : IsTrans RankCand scoreGe :=
  ⟨fun _ _ _ h1 h2 => le_trans h2 h1⟩

/-- Claim C8 (amended) — ranking-failure fallback. `max_likes` is at least 1;
every returned candidate carries the heuristic score
`0.5·exp(−age_hours/48) + 0.5·like_count/max_likes` **rounded to 4 decimal
places** (the source applies Python `round(…, 4)`); the returned list is the
scored batch sorted by `rank_score` descending; and feeding the ranked ids
into Stage 4 yields at most `feed_page_size = 20` posts. -/
theorem c8_heuristic_fallback (now : ℝ) (cands : List RankCand) :
    1 ≤ maxLikesOf cands
    ∧ (∀ c ∈ scoreCandidatesFailed now cands,
        c.rank_score = round4
          (0.5 * Real.exp (-((now - c.created_at_ts.getD now) / 3600 / 48))
            + 0.5 * ((c.like_count.getD 0 : ℝ) / maxLikesOf cands)))
    ∧ List.Sorted scoreGe (scoreCandidatesFailed now cands)
    ∧ List.Perm (scoreCandidatesFailed now cands) (applyHeuristicScores now cands)
    ∧ ∀ postMap : String → Option PostRow,
        (stage4Rerank ((scoreCandidatesFailed now cands).map RankCand.post_id)
          postMap feed_page_size).length ≤ feed_page_size := by
  refine ⟨?_, ?_, ?_, ?_, ?_⟩
  · unfold maxLikesOf
    cases cands with
    | nil => simp
    | cons c t =>
      dsimp only
      split_ifs with h
      · exact le_refl 1
      · omega
  · intro c hc
    unfold scoreCandidatesFailed at hc
    by_cases he : cands.isEmpty
    · rw [if_pos he] at hc
      cases hc
    · rw [if_neg he] at hc
      have hc' : c ∈ applyHeuristicScores now cands :=
        (List.perm_insertionSort scoreGe _).mem_iff.mp hc
      obtain ⟨c0, _, rfl⟩ := List.mem_map.mp hc'
      simp [heuristicScore]
  · unfold scoreCandidatesFailed
    by_cases he : cands.isEmpty
    · rw [if_pos he]
      exact List.sorted_nil
    · rw [if_neg he]
      exact List.sorted_insertionSort scoreGe _
  · unfold scoreCandidatesFailed
    by_cases he : cands.isEmpty
    · rw [if_pos he]
      rw [List.isEmpty_iff.mp he]
      simp [applyHeuristicScores]
    · rw [if_neg he]
      exact List.perm_insertionSort scoreGe _
  · intro postMap
    exact stage4Walk_length _ _ _ _ _ (by simp)

/-- Claim C8 (counterexample to the claim as stated) — the attached score is the
*rounded* heuristic, not the exact formula: for a batch of two zero-age
candidates with 3 and 1 likes, the second candidate's score is
`round(2/3, 4) = 0.6667 ≠ 0.5·exp(0) + 0.5·(1/3) = 2/3`. -/
theorem c8_heuristic_round_counterexample :
    ((applyHeuristicScores 0
        [⟨"a", some 3, some 0, 0⟩, ⟨"b", some 1, some 0, 0⟩]).getD 1
        ⟨"", none, none, 0⟩).rank_score
      ≠ 0.5 * Real.exp (-(((0 : ℝ) - 0) / 3600 / 48))
        + 0.5 * ((1 : ℝ) / 3) := by
  have hml : maxLikesOf [⟨"a", some 3, some 0, 0⟩, ⟨"b", some 1, some 0, 0⟩] = 3 := by
    rfl
  have hval : ((applyHeuristicScores 0
      [⟨"a", some 3, some 0, 0⟩, ⟨"b", some 1, some 0, 0⟩]).getD 1
      ⟨"", none, none, 0⟩).rank_score
      = round4 (0.5 * Real.exp (-(((0 : ℝ) - 0) / 3600 / 48)) + 0.5 * ((1 : ℝ) / 3)) := by
    simp [applyHeuristicScores, heuristicScore, hml]
  rw [hval]
  have hexp : Real.exp (-(((0 : ℝ) - 0) / 3600 / 48)) = 1 := by
    norm_num
  rw [hexp]
  have harg : (0.5 * 1 + 0.5 * ((1 : ℝ) / 3)) * 10000 = 20000 / 3 := by
    norm_num
  have hround : round ((0.5 * 1 + 0.5 * ((1 : ℝ) / 3)) * 10000) = 6667 := by
    rw [harg, round_eq]
    have : (20000 : ℝ) / 3 + 1 / 2 = 40003 / 6 := by norm_num
    rw [this, Int.floor_eq_iff]
    norm_num
  unfold round4
  rw [hround]
  norm_num

/-! ### Feast feature client (feast_client.py) and Stage-3 orchestration -/

/-- A feature value in a decoded Feast response. The JSON-string-encoded
float-list features (`interest_vector_json` / `embedding_json`) are modelled
directly by their decoded content (`vec`); a non-`vec` value in such a
position models a malformed payload. Scalars idealise floats as `ℝ`. -/
inductive FVal
  | str (s : String)
  | num (x : ℝ)
  | vec (v : List ℝ)

/-- One column of the column-oriented response: `results[i].values`
(`results[i].get("values", [])`, so a missing key normalises to `[]`);
`none` entries are JSON nulls. -/
structure FeastColumn where
  values : List (Option FVal)

/-- A decoded `/get-online-features` body. `feature_names = none` models a
body without `metadata.feature_names` (`data["metadata"]["feature_names"]`
raises `KeyError`); likewise `results = none` for a missing `results` key. -/
structure FeastBody where
  feature_names : Option (List String)
  results : Option (List FeastColumn)

/-- Outcome of one `POST /get-online-features`: `failed` covers everything
raised inside the HTTP layer — connection error, timeout, non-2xx
(`raise_for_status`), or an undecodable body (`resp.json()`); `ok` carries
the decoded body. -/
inductive FeastCall
  | failed
  | ok (body : FeastBody)

/-- Value of row `rowIdx` at feature `fname` after the pivot
(feast_client.py 73–78): the value list of the *last* column named `fname`
(later columns overwrite equal keys in a row dict), padded with `None` beyond
its length; `none` for a name outside `feature_names` (`row.get` default). -/
def rowVal (pairs : List (String × FeastColumn)) (rowIdx : ℕ) (fname : String) :
    Option FVal :=
  match pairs.reverse.find? (fun pr => pr.1 = fname) with
  | none => none
  | some pr => pr.2.values.getD rowIdx none

/-- Model of `_parse_response` (feast_client.py 64–79): pivot the column-oriented
response into `n_rows` row dicts. `results[col_idx]` raises `IndexError` when
`results` is shorter than `feature_names`; neither call site guards this, so
it is the error case. -/
def parse_response (feature_names : List String) (results : List FeastColumn)
    (n_rows : ℕ) : Except Unit (List (String → Option FVal)) :=
  if feature_names.length ≤ results.length then
    .ok ((List.range n_rows).map (fun i => rowVal (feature_names.zip results) i))
  else
    .error ()

/-- Model of `_parse_vector` (feast_client.py 48–53): decode a JSON float list; any
failure (missing value, null, non-list payload) yields the empty vector. -/
def parse_vector : Option FVal → List ℝ
  | some (.vec v) => v
  | _ => []

/-- Model of `_cosine_sim` (feast_client.py 56–61): `0.0` when either array is empty;
otherwise `dot / (‖a‖·‖b‖)` when the norm product is positive, else `0.0`.
`np.dot` raises `ValueError` on a 1-D length mismatch (it is only evaluated
when the norm product is positive); no call site guards it, hence the error
case. -/
noncomputable def cosineSim (a b : List ℝ) : Except Unit ℝ :=
  if a.length = 0 ∨ b.length = 0 then .ok 0
  else if 0 < normList a * normList b then
    if a.length = b.length then .ok (dotList a b / (normList a * normList b))
    else .error ()
  else .ok 0

/-- The `user_features` dict built at feast_client.py 131–136: one entry per
`user_stats__`-prefixed feature name, holding that feature's value in the
first row (`rows[0].get(fname) if rows else None`). -/
def rf_user_features (names : List String)
    (rows : List (String → Option FVal)) : String → Option FVal :=
  fun key =>
    if names.contains ("user_stats__" ++ key) then
      match rows.head? with
      | some r0 => r0 ("user_stats__" ++ key)
      | none => none
    else none

/-- The per-post dict built at feast_client.py 143–147 before the
cross-feature: one entry per `post_stats__`-prefixed name, stripped. -/
def rf_post_base (names : List String) (row : String → Option FVal) :
    String → Option FVal :=
  fun key =>
    if names.contains ("post_stats__" ++ key) then row ("post_stats__" ++ key)
    else none

/-- One iteration of the `zip(rows, candidate_ids)` loop (feast_client.py
142–153): build the stripped post dict, compute its `topic_similarity` from
the stored vectors, and key the dict by the candidate id. The attached value
is the **raw** `_cosine_sim` output — no `(x+1)/2` mapping is applied here. -/
noncomputable def rf_row_entry (iv : List ℝ) (names : List String)
    (rc : (String → Option FVal) × String) :
    Except Unit (String × (String → Option FVal)) :=
  (cosineSim iv (parse_vector (rf_post_base names rc.1 "embedding_json"))).map
    (fun ts => (rc.2,
      fun key => if key = "topic_similarity" then some (.num ts)
        else rf_post_base names rc.1 key))

/-- Model of `FeastClient.get_ranking_features` (feast_client.py 96–155). Input: the
call outcome and the candidate ids (the `user_id` only shapes the request
payload). Output: the `(user_features, post_features)` pair, or the error case
when the coroutine raises — transport failure, missing body key, short
`results`, or an `np.dot` length mismatch; feed.py's stage-3 `try` catches
any of these. -/
noncomputable def get_ranking_features (call : FeastCall) (cids : List String) :
    Except Unit ((String → Option FVal) × (String → Option (String → Option FVal))) :=
  if cids.isEmpty then .ok (fun _ => none, fun _ => none)
  else
    match call with
    | .failed => .error ()
    | .ok body =>
      match body.feature_names, body.results with
      | some names, some results =>
        (parse_response names results cids.length).bind (fun rows =>
          ((rows.zip cids).mapM (rf_row_entry
              (parse_vector (rf_user_features names rows "interest_vector_json"))
              names)).map
            (fun pairs =>
              (rf_user_features names rows,
                fun pid =>
                  (pairs.reverse.find? (fun pr => pr.1 = pid)).map Prod.snd)))
      | _, _ => .error ()

/-- Python truthiness of a feature value (`if aid:`, `x or y`): `0.0`, `""`
and the empty array are falsy. (NumPy refuses truth tests on longer arrays;
vector values never occur in a truth-tested position.) -/
noncomputable def fval_truthy : FVal → Bool
  | .str s => !(s == "")
  | .num x => decide (x ≠ 0)
  | .vec v => !v.isEmpty

/-- Python `a or b` over two optional feature values. -/
noncomputable def pyOr (a b : Option FVal) : Option FVal :=
  match a with
  | some v => if fval_truthy v then some v else b
  | none => b

/-- Python `float(v)` on a feature value: the identity on numbers; a
non-numeric value raises `TypeError`/`ValueError` (numeric-string coercion is
not modelled — affinity values arrive as JSON numbers). -/
def pyFloat : FVal → Except Unit ℝ
  | .num x => .ok x
  | .str _ => .error ()
  | .vec _ => .error ()

/-- Model of `FeastClient.get_affinity_features` (feast_client.py 157–197): an empty
author list short-circuits to `{}` *before* any request; the HTTP call and
the body decode sit inside `try`/`except` and degrade to `{}`; but the decoded
body's *shape* is read **outside** the guard, so a missing
`metadata.feature_names`/`results` key or a short `results` raises out of the
function. Per author (`unique = list(set(author_ids))`, modelled as `dedup`):
the prefixed column is consulted first with the bare `affinity_score` column
as fallback (`or`); a missing value becomes `0.0`; `float()` of a non-numeric
value raises (also unguarded). -/
noncomputable def get_affinity_features (call : FeastCall)
    (author_ids : List String) : Except Unit (String → Option ℝ) :=
  if author_ids.isEmpty then .ok (fun _ => none)
  else
    match call with
    | .failed => .ok (fun _ => none)
    | .ok body =>
      match body.feature_names, body.results with
      | some names, some results =>
        (parse_response names results author_ids.dedup.length).bind (fun rows =>
          ((rows.zip author_ids.dedup).mapM
            (fun ru : (String → Option FVal) × String =>
              match pyOr (ru.1 "user_author_affinity__affinity_score")
                  (ru.1 "affinity_score") with
              | some v => (pyFloat v).map (fun x => (ru.2, x))
              | none => .ok (ru.2, (0 : ℝ)))).map
            (fun pairs : List (String × ℝ) => fun aid =>
              (pairs.reverse.find? (fun pr : String × ℝ => pr.1 = aid)).map
                Prod.snd))
      | _, _ => .error ()

/-- The authors enriched after the primary fetch (feed.py 161–165):
`post_feature_map.get(pid, {}).get("author_id")` per candidate, deduplicated
(`set(…)`), dropping falsy entries (`if a`). `author_id` is a String-typed
Feast feature, so only non-empty strings survive. -/
noncomputable def uniqueAuthors
    (pfm : String → Option (String → Option FVal)) (cids : List String) :
    List String :=
  ((cids.map (fun pid => (pfm pid).bind (fun pf => pf "author_id"))).filterMap
    (fun o => match o with
      | some (.str a) => if a = "" then none else some a
      | _ => none)).dedup

/-- The affinity attach loop (feed.py 169–172): for every candidate id with a
hydrated feature dict, set `affinity_score` to
`affinity_map.get(aid, 0.0) if aid else 0.0`; ids without a dict mutate a
fresh throwaway `{}` and gain no entry. -/
noncomputable def attachAffinity
    (pfm : String → Option (String → Option FVal)) (am : String → Option ℝ)
    (cids : List String) :
    String → Option (String → Option FVal) :=
  fun pid =>
    (pfm pid).map (fun pf =>
      if pid ∈ cids then
        fun key =>
          if key = "affinity_score" then
            some (.num (match pf "author_id" with
              | some v =>
                if fval_truthy v then
                  match v with
                  | .str a => (am a).getD 0
                  | _ => 0
                else 0
              | none => 0))
          else pf key
      else pf)

/-- Result of the Stage-3 feature fetch: the `stage3.feature_source` span
attribute and the two feature maps. -/
structure Stage3Result where
  feature_source : String
  user_features : String → Option FVal
  post_features : String → Option (String → Option FVal)

/-- The guarded block of feed.py 155–185: the primary Feast path (ranking
features, then affinity enrichment) runs inside one `try`; on *any* exception
the request degrades to the Redis feature cache (`get_user_features` +
`get_post_features`, whose cached contents are the `redisUser` / `redisPost`
inputs; `get_post_features` returns a — possibly empty — hash for exactly the
requested ids) and records `stage3.feature_source = "redis-fallback"`;
otherwise `"feast"`. -/
noncomputable def stage3FeatureFetch (rfCall affCall : FeastCall)
    (cids : List String) (redisUser : String → Option FVal)
    (redisPost : String → String → Option FVal) : Stage3Result :=
  match (get_ranking_features rfCall cids).bind (fun ufpfm =>
      (get_affinity_features affCall (uniqueAuthors ufpfm.2 cids)).map
        (fun am => (ufpfm.1, attachAffinity ufpfm.2 am cids))) with
  | .ok ufpfm => ⟨"feast", ufpfm.1, ufpfm.2⟩
  | .error _ =>
      ⟨"redis-fallback", redisUser,
        fun pid => if pid ∈ cids then some (redisPost pid) else none⟩

/-! ### Lemmas for the Stage-3 claims -/

/-- Every element of a successful `mapM` run over `Except` is the image of an
input element. -/
lemma mapM_ok_mem {α β : Type} (f : α → Except Unit β) :
    ∀ (l : List α) (out : List β), l.mapM f = .ok out →
      ∀ y ∈ out, ∃ x ∈ l, f x = .ok y := by
  intro l
  induction l with
  | nil =>
    intro out h y hy
    simp only [List.mapM_nil] at h
    cases h
    cases hy
  | cons x t ih =>
    intro out h y hy
    rw [List.mapM_cons] at h
    cases hfx : f x with
    | error e =>
      rw [hfx] at h
      simp only [Bind.bind, Except.bind] at h
      cases h
    | ok b =>
      rw [hfx] at h
      simp only [Bind.bind, Except.bind] at h
      cases hmt : t.mapM f with
      | error e =>
        rw [hmt] at h
        cases h
      | ok bs =>
        rw [hmt] at h
        simp only [Pure.pure, Except.pure] at h
        injection h with h
        subst h
        rcases List.mem_cons.mp hy with rfl | hy'
        · exact ⟨x, List.mem_cons_self x t, hfx⟩
        · obtain ⟨x', hx', hfx'⟩ := ih bs hmt y hy'
          exact ⟨x', List.mem_cons_of_mem x hx', hfx'⟩

/-- A successful `_cosine_sim` value always lies in `[−1, 1]`. -/
lemma cosineSim_ok_bounds (a b : List ℝ) (ts : ℝ)
    (h : cosineSim a b = .ok ts) : -1 ≤ ts ∧ ts ≤ 1 := by
  unfold cosineSim at h
  by_cases h1 : a.length = 0 ∨ b.length = 0
  · rw [if_pos h1] at h
    injection h with h
    subst h
    norm_num
  · rw [if_neg h1] at h
    by_cases h2 : 0 < normList a * normList b
    · rw [if_pos h2] at h
      by_cases h3 : a.length = b.length
      · rw [if_pos h3] at h
        injection h with h
        subst h
        have habs : |dotList a b / (normList a * normList b)| ≤ 1 := by
          rw [abs_div, abs_of_pos h2]
          exact div_le_one_of_le₀ (abs_dotList_le a b) (le_of_lt h2)
        exact abs_le.mp habs
      · rw [if_neg h3] at h
        cases h
    · rw [if_neg h2] at h
      injection h with h
      subst h
      norm_num

/-- Unpacking a successful row entry: its dict holds the raw cosine under
`topic_similarity` and otherwise the stripped base dict. -/
lemma rf_row_entry_ok (iv : List ℝ) (names : List String)
    (rc : (String → Option FVal) × String)
    (pr : String × (String → Option FVal))
    (h : rf_row_entry iv names rc = .ok pr) :
    ∃ ts : ℝ,
      cosineSim iv (parse_vector (rf_post_base names rc.1 "embedding_json"))
        = .ok ts
      ∧ pr = (rc.2,
          fun key => if key = "topic_similarity" then some (.num ts)
            else rf_post_base names rc.1 key) := by
  unfold rf_row_entry at h
  cases hcs : cosineSim iv (parse_vector (rf_post_base names rc.1 "embedding_json")) with
  | error e =>
    rw [hcs] at h
    cases h
  | ok ts =>
    rw [hcs] at h
    simp only [Except.map] at h
    injection h with h
    exact ⟨ts, rfl, h.symm⟩

/-- Claim C2 (amended) — for every candidate hydrated on the primary feature
path, the `topic_similarity` value attached to its post features is the **raw**
`_cosine_sim` of the viewer's interest vector (as returned in the user
features) and the post's embedding; it always lies in `[−1, 1]`. No
`(x+1)/2` mapping is applied at hydration — that shift lives in the ranking
service's consumption of the feature. -/
theorem c2_topic_similarity_raw_cosine (call : FeastCall) (cids : List String)
    (pid : String) (pf : String → Option FVal)
    (hpf : (get_ranking_features call cids).toOption.bind (fun r => r.2 pid)
      = some pf) :
    ∃ ts : ℝ,
      pf "topic_similarity" = some (.num ts)
      ∧ (∀ r, get_ranking_features call cids = .ok r →
          cosineSim (parse_vector (r.1 "interest_vector_json"))
            (parse_vector (pf "embedding_json")) = .ok ts)
      ∧ -1 ≤ ts ∧ ts ≤ 1 := by
  cases hgr0 : get_ranking_features call cids with
  | error e =>
    rw [hgr0] at hpf
    simp [Except.toOption] at hpf
  | ok r =>
    rw [hgr0] at hpf
    simp only [Except.toOption, Option.bind] at hpf
    obtain ⟨uf, pfm⟩ := r
    have hgr := hgr0
    unfold get_ranking_features at hgr
    by_cases hemp : cids.isEmpty
    · rw [if_pos hemp] at hgr
      injection hgr with hgr
      have hpfm : (fun _ => none : String → Option (String → Option FVal)) = pfm :=
        congrArg Prod.snd hgr
      rw [← hpfm] at hpf
      cases hpf
    · rw [if_neg hemp] at hgr
      cases call with
      | failed => exact Except.noConfusion hgr
      | ok body =>
        obtain ⟨fns, rs⟩ := body
        cases fns with
        | none =>
          cases rs with
          | none => exact Except.noConfusion hgr
          | some results => exact Except.noConfusion hgr
        | some names =>
          cases rs with
          | none => exact Except.noConfusion hgr
          | some results =>
            dsimp only at hgr
            cases hpr : parse_response names results cids.length with
            | error e =>
              rw [hpr] at hgr
              exact Except.noConfusion hgr
            | ok rows =>
              rw [hpr] at hgr
              simp only [Except.bind] at hgr
              cases hmm : (rows.zip cids).mapM (rf_row_entry
                  (parse_vector (rf_user_features names rows "interest_vector_json"))
                  names) with
              | error e =>
                rw [hmm] at hgr
                exact Except.noConfusion hgr
              | ok pairs =>
                rw [hmm] at hgr
                simp only [Except.map] at hgr
                injection hgr with hgr
                have huf : rf_user_features names rows = uf :=
                  congrArg Prod.fst hgr
                have hpfm := congrArg Prod.snd hgr
                rw [← hpfm] at hpf
                obtain ⟨pr, hfind, hsnd⟩ := Option.map_eq_some'.mp hpf
                have hprmem : pr ∈ pairs :=
                  List.mem_reverse.mp (List.mem_of_find?_eq_some hfind)
                obtain ⟨rc, _, hfrc⟩ := mapM_ok_mem _ _ _ hmm pr hprmem
                obtain ⟨ts, hcs, hpr_eq⟩ := rf_row_entry_ok _ _ _ _ hfrc
                subst hpr_eq
                dsimp only at hsnd
                refine ⟨ts, ?_, ?_, cosineSim_ok_bounds _ _ _ hcs⟩
                · rw [← hsnd]
                  dsimp only
                  rw [if_pos rfl]
                · intro r' hr'
                  injection hr' with hr''
                  subst hr''
                  have hemb : pf "embedding_json"
                      = rf_post_base names rc.1 "embedding_json" := by
                    rw [← hsnd]
                    dsimp only
                    rw [if_neg (by decide)]
                  rw [hemb]
                  dsimp only
                  rw [← huf]
                  exact hcs

/-- Witness for **C2**: a one-candidate response carrying only a
`post_stats__author_id` column (no vectors, so the cosine is `0.0`). -/
theorem c2_topic_similarity_raw_cosine_witness :
    ((get_ranking_features
        (FeastCall.ok ⟨some ["post_stats__author_id"],
          some [⟨[some (FVal.str "a1")]⟩]⟩) ["p1"]).toOption.bind
        (fun r => r.2 "p1")
      = some (fun key => if key = "topic_similarity" then some (FVal.num 0)
          else rf_post_base ["post_stats__author_id"]
            (rowVal [("post_stats__author_id", ⟨[some (FVal.str "a1")]⟩)] 0) key))
    ∧ ∃ ts : ℝ,
        (fun key => if key = "topic_similarity" then some (FVal.num 0)
          else rf_post_base ["post_stats__author_id"]
            (rowVal [("post_stats__author_id", ⟨[some (FVal.str "a1")]⟩)] 0) key)
          "topic_similarity" = some (.num ts)
        ∧ (∀ r, get_ranking_features
            (FeastCall.ok ⟨some ["post_stats__author_id"],
              some [⟨[some (FVal.str "a1")]⟩]⟩) ["p1"] = .ok r →
            cosineSim (parse_vector (r.1 "interest_vector_json"))
              (parse_vector
                ((fun key => if key = "topic_similarity" then some (FVal.num 0)
                  else rf_post_base ["post_stats__author_id"]
                    (rowVal [("post_stats__author_id",
                      ⟨[some (FVal.str "a1")]⟩)] 0) key) "embedding_json"))
              = .ok ts)
        ∧ -1 ≤ ts ∧ ts ≤ 1 :=
  ⟨rfl, c2_topic_similarity_raw_cosine
    (FeastCall.ok ⟨some ["post_stats__author_id"],
      some [⟨[some (FVal.str "a1")]⟩]⟩) ["p1"] "p1" _ rfl⟩

/-- Claim C2 (counterexample to the claim as stated) — with interest vector
`[1]` and post embedding `[−1]`, the attached `topic_similarity` is the raw
cosine `−1`, which is **not** in `[0, 1]` and differs from the claimed
`(x+1)/2` mapping (which would give `0`). -/
theorem c2_topic_similarity_counterexample :
    (((get_ranking_features
        (FeastCall.ok ⟨some ["user_stats__interest_vector_json",
            "post_stats__embedding_json"],
          some [⟨[some (FVal.vec [1])]⟩, ⟨[some (FVal.vec [-1])]⟩]⟩)
        ["p1"]).toOption.bind (fun r => r.2 "p1")).bind
      (fun pf => pf "topic_similarity")) = some (FVal.num (-1))
    ∧ ¬ ((0 : ℝ) ≤ -1) := by
  constructor
  · have hcos : cosineSim [(1 : ℝ)] [(-1 : ℝ)] = .ok (-1) := by
      unfold cosineSim
      rw [if_neg (by simp)]
      have hnorm : normList [(1 : ℝ)] * normList [(-1 : ℝ)] = 1 := by
        unfold normList sumSq
        norm_num
      rw [hnorm]
      rw [if_pos (by norm_num), if_pos (by simp)]
      have hdot : dotList [(1 : ℝ)] [(-1 : ℝ)] = -1 := by
        unfold dotList
        norm_num
      rw [hdot]
      norm_num
    have hrow : rf_row_entry [(1 : ℝ)]
        ["user_stats__interest_vector_json", "post_stats__embedding_json"]
        (rowVal [("user_stats__interest_vector_json", ⟨[some (FVal.vec [1])]⟩),
          ("post_stats__embedding_json", ⟨[some (FVal.vec [-1])]⟩)] 0, "p1")
        = .ok ("p1",
          fun key => if key = "topic_similarity" then some (FVal.num (-1))
            else rf_post_base
              ["user_stats__interest_vector_json", "post_stats__embedding_json"]
              (rowVal [("user_stats__interest_vector_json", ⟨[some (FVal.vec [1])]⟩),
                ("post_stats__embedding_json", ⟨[some (FVal.vec [-1])]⟩)] 0) key) := by
      unfold rf_row_entry
      have hemb : parse_vector (rf_post_base
          ["user_stats__interest_vector_json", "post_stats__embedding_json"]
          (rowVal [("user_stats__interest_vector_json", ⟨[some (FVal.vec [1])]⟩),
            ("post_stats__embedding_json", ⟨[some (FVal.vec [-1])]⟩)] 0)
          "embedding_json") = [(-1 : ℝ)] := rfl
      rw [hemb, hcos]
      rfl
    unfold get_ranking_features
    rw [if_neg (by decide)]
    dsimp only
    rw [show parse_response
        ["user_stats__interest_vector_json", "post_stats__embedding_json"]
        [⟨[some (FVal.vec [1])]⟩, ⟨[some (FVal.vec [-1])]⟩] (["p1"].length)
        = Except.ok
          [rowVal [("user_stats__interest_vector_json", ⟨[some (FVal.vec [1])]⟩),
            ("post_stats__embedding_json", ⟨[some (FVal.vec [-1])]⟩)] 0] from rfl]
    simp only [Except.bind]
    rw [show parse_vector (rf_user_features
        ["user_stats__interest_vector_json", "post_stats__embedding_json"]
        [rowVal [("user_stats__interest_vector_json", ⟨[some (FVal.vec [1])]⟩),
          ("post_stats__embedding_json", ⟨[some (FVal.vec [-1])]⟩)] 0]
        "interest_vector_json") = [(1 : ℝ)] from rfl]
    rw [show ([rowVal [("user_stats__interest_vector_json", ⟨[some (FVal.vec [1])]⟩),
          ("post_stats__embedding_json", ⟨[some (FVal.vec [-1])]⟩)] 0].zip ["p1"])
        = [(rowVal [("user_stats__interest_vector_json", ⟨[some (FVal.vec [1])]⟩),
            ("post_stats__embedding_json", ⟨[some (FVal.vec [-1])]⟩)] 0, "p1")]
        from rfl]
    rw [List.mapM_cons, hrow]
    simp only [List.mapM_nil, Bind.bind, Except.bind, Pure.pure, Except.pure,
      Except.map, Except.toOption, Option.bind]
    rfl
  · norm_num

/-- The affinity call degrades to the empty map whenever the guarded block
raises, for any author list. -/
lemma get_affinity_features_failed (authors : List String) :
    get_affinity_features .failed authors = .ok (fun _ => none) := by
  unfold get_affinity_features
  by_cases h : authors.isEmpty
  · rw [if_pos h]
  · rw [if_neg h]

/-- Attaching from the empty affinity map writes `0.0` into every hydrated
candidate dict. -/
lemma attachAffinity_zero (pfm : String → Option (String → Option FVal))
    (cids : List String) (pid : String) (pf : String → Option FVal)
    (hmem : pid ∈ cids)
    (h : attachAffinity pfm (fun _ => none) cids pid = some pf) :
    pf "affinity_score" = some (.num 0) := by
  unfold attachAffinity at h
  cases hp : pfm pid with
  | none =>
    rw [hp] at h
    cases h
  | some pf1 =>
    rw [hp] at h
    simp only [Option.map] at h
    injection h with h
    rw [← h, if_pos hmem]
    rw [if_pos rfl]
    cases hav : pf1 "author_id" with
    | none => rfl
    | some v =>
      cases htr : fval_truthy v with
      | false => simp [htr]
      | true =>
        cases v with
        | str a => simp [htr]
        | num x => simp [htr]
        | vec w => simp [htr]

/-- Claim C9 (amended) — when the primary ranking-features call succeeds and the
*affinity* call fails at the transport level (connection error, timeout,
non-2xx, or undecodable body — everything its internal `try` guards),
`get_affinity_features` returns the empty map, every hydrated candidate's
`affinity_score` is `0.0`, and the request stays on the primary path
(`stage3.feature_source = "feast"`; the Redis feature cache is not used).
A *decoded but malformed* affinity body, however, raises outside the guard —
see the counterexample. -/
theorem c9_affinity_transport_failure_stays_feast (rfCall : FeastCall)
    (cids : List String) (redisUser : String → Option FVal)
    (redisPost : String → String → Option FVal)
    (hok : (get_ranking_features rfCall cids).toOption.isSome = true) :
    (stage3FeatureFetch rfCall .failed cids redisUser redisPost).feature_source
      = "feast"
    ∧ (∀ authors, get_affinity_features .failed authors = .ok (fun _ => none))
    ∧ (∀ pid ∈ cids, ∀ pf,
        (stage3FeatureFetch rfCall .failed cids redisUser redisPost).post_features
          pid = some pf →
        pf "affinity_score" = some (.num 0)) := by
  cases hgr : get_ranking_features rfCall cids with
  | error e =>
    rw [hgr] at hok
    simp [Except.toOption] at hok
  | ok r =>
    have hs3 : stage3FeatureFetch rfCall .failed cids redisUser redisPost
        = ⟨"feast", r.1, attachAffinity r.2 (fun _ => none) cids⟩ := by
      unfold stage3FeatureFetch
      rw [hgr]
      simp only [Except.bind]
      rw [get_affinity_features_failed]
      rfl
    refine ⟨by rw [hs3], fun authors => get_affinity_features_failed authors, ?_⟩
    intro pid hpid pf hpf
    rw [hs3] at hpf
    exact attachAffinity_zero r.2 cids pid pf hpid hpf

/-- Witness for **C9**: a concrete successful ranking-features response
(one `post_stats__author_id` column) with a transport-failed affinity call. -/
theorem c9_affinity_transport_failure_witness :
    ((get_ranking_features
        (FeastCall.ok ⟨some ["post_stats__author_id"],
          some [⟨[some (FVal.str "a1")]⟩]⟩) ["p1"]).toOption.isSome = true)
    ∧ ((stage3FeatureFetch
          (FeastCall.ok ⟨some ["post_stats__author_id"],
            some [⟨[some (FVal.str "a1")]⟩]⟩) .failed ["p1"]
          (fun _ => none) (fun _ _ => none)).feature_source = "feast"
        ∧ (∀ authors, get_affinity_features .failed authors
            = .ok (fun _ => none))
        ∧ (∀ pid ∈ ["p1"], ∀ pf,
            (stage3FeatureFetch
              (FeastCall.ok ⟨some ["post_stats__author_id"],
                some [⟨[some (FVal.str "a1")]⟩]⟩) .failed ["p1"]
              (fun _ => none) (fun _ _ => none)).post_features pid = some pf →
            pf "affinity_score" = some (.num 0))) :=
  ⟨rfl, c9_affinity_transport_failure_stays_feast
    (FeastCall.ok ⟨some ["post_stats__author_id"],
      some [⟨[some (FVal.str "a1")]⟩]⟩) ["p1"]
    (fun _ => none) (fun _ _ => none) rfl⟩

/-- Claim C9 (counterexample to the claim as stated) — a *successfully decoded*
affinity response whose body lacks `metadata.feature_names` raises outside
the function's `try` guard, so the whole stage-3 block falls back to the
Redis feature cache even though the first (ranking-features) call succeeded:
the claim that *only* a failure of the first call switches the request to the
Redis cache is false. -/
theorem c9_malformed_affinity_counterexample :
    (stage3FeatureFetch
        (FeastCall.ok ⟨some ["post_stats__author_id"],
          some [⟨[some (FVal.str "a1")]⟩]⟩)
        (FeastCall.ok ⟨none, some []⟩)
        ["p1"] (fun _ => none) (fun _ _ => none)).feature_source
      = "redis-fallback" := rfl

end Spec2Proof
